import Mathlib

/-
Verification of the message relay core of the whatsapp-telegram-bridge
repository (src/message_handler.py and src/whatsapp.py) against its
natural-language specification.

Modelling conventions:
* A message event is the dict built in telegram.py; each key that
  `process_message`, `_apply_filters` or `send_message` reads is a field
  of `MessageData`, `Option`-valued because `dict.get` may find the key
  absent.
* The dedup store `self.processed_messages` is a Python `set`.  Python
  specifies membership exactly but leaves the iteration order of a set
  unspecified, so the line `set(list(s)[-1000:])` keeps the last 1000
  elements of an *unspecified* enumeration of the set.  The embedding
  therefore keeps the state as the list of elements in insertion order
  and takes the enumeration used at trim time as an explicit parameter
  `enum`; a legal enumeration (`ValidEnum`) lists exactly the elements
  of the set, in any order.  Theorems that hold for every legal
  enumeration hold of the program; a behaviour exhibited by one legal
  enumeration is a behaviour the program may show.
* Exceptions are modelled by `Option`/sum results: a sink call that
  raises is `none`, one that returns a response is `some _`.
-/

/-- A message id as stored in `processed_messages`: `some n` is a Telegram
integer id, `none` models Python's `None`, which `message_data.get("message_id")`
returns when the key is absent. -/
abbrev MsgId := Option Nat

/-- The dedup capacity, hard-coded as `1000` in `process_message`
(`if len(self.processed_messages) > 1000`). -/
def dedupCap : Nat := 1000

/-- The inbound event dict, restricted to the keys the relay core reads
(message_handler.py and whatsapp.py).  `none` means the key is absent. -/
structure MessageData where
  message_id : Option Nat := none
  type : Option String := none
  username : Option String := none
  user_id : Option Nat := none
  text : Option String := none
  caption : Option String := none
  media_file : Option String := none
deriving DecidableEq

/-- `message_data.get("text", "")`. -/
def MessageData.getText (m : MessageData) : String := m.text.getD ""

/-- `message_data.get("caption", "")`. -/
def MessageData.getCaption (m : MessageData) : String := m.caption.getD ""

/-- `message_data.get("username", "")`.  telegram.py may also store the
value `None`; for every use below (`if username` / `username and ...`)
that value behaves exactly like `""`, so both are rendered as `""`. -/
def MessageData.getUsername (m : MessageData) : String := m.username.getD ""

/-- `str(message_data.get("user_id", ""))`: decimal rendering of the id,
`""` when the key is absent. -/
def MessageData.strUserId (m : MessageData) : String :=
  match m.user_id with
  | some n => toString n
  | none => ""

/-- The filters dict passed to `MessageHandler`; each key is optional. -/
structure Filters where
  only_forward_media_types : Option (List String) := none
  ignore_users : Option (List String) := none
  ignore_keywords : Option (List String) := none
  only_include_keywords : Option (List String) := none
deriving DecidableEq

/-- `not self.filters`: the filters dict has no keys at all. -/
def Filters.isEmptyDict (f : Filters) : Bool :=
  f.only_forward_media_types.isNone && f.ignore_users.isNone &&
    f.ignore_keywords.isNone && f.only_include_keywords.isNone

/-- Python `s.lower()` on the strings the filter builds: characterwise
lowering of the underlying character list. -/
def pyLower (s : String) : List Char := s.data.map Char.toLower

/-- Python `needle in hay` on strings: contiguous-substring test, true
iff `needle` is a prefix of some suffix of `hay`. -/
def pyIn : List Char → List Char → Bool
  | needle, [] => needle.isEmpty
  | needle, c :: rest => needle.isPrefixOf (c :: rest) || pyIn needle rest

/-- `text = (message_data.get("text", "") + " " + message_data.get("caption", "")).lower()`
(message_handler.py line 109). -/
def haystack (m : MessageData) : List Char :=
  pyLower (m.getText ++ " " ++ m.getCaption)

/-- Python `message_data.get("type") not in allowed_types`, negated:
`None` is never equal to a string of the configured list. -/
def typeMem : Option String → List String → Bool
  | none, _ => false
  | some t, l => l.contains t

/-- Rule 1 of `_apply_filters` (lines 89-92):
`if allowed_types and message_data.get("type") not in allowed_types`. -/
def kindRejected (f : Filters) (m : MessageData) : Bool :=
  let allowed := f.only_forward_media_types.getD []
  !allowed.isEmpty && !typeMem m.type allowed

/-- Rules 2 and 3 of `_apply_filters` (lines 95-105): reject when the
non-empty username is ignored, or the stringified user id is ignored. -/
def userRejected (f : Filters) (m : MessageData) : Bool :=
  let ignored := f.ignore_users.getD []
  (!(m.getUsername == "") && ignored.contains m.getUsername) ||
    ignored.contains m.strUserId

/-- Rule 4 of `_apply_filters` (lines 108-114): some ignore keyword,
lowercased, occurs in the lowercased text-space-caption haystack. -/
def keywordRejected (f : Filters) (m : MessageData) : Bool :=
  (f.ignore_keywords.getD []).any fun kw => pyIn (pyLower kw) (haystack m)

/-- Rule 5 of `_apply_filters` (lines 117-124): the include list is
non-empty and no entry, lowercased, occurs in the haystack. -/
def requiredMissing (f : Filters) (m : MessageData) : Bool :=
  let inc := f.only_include_keywords.getD []
  !inc.isEmpty && !(inc.any fun kw => pyIn (pyLower kw) (haystack m))

/-- `MessageHandler._apply_filters`: the empty-dict fast path, then the
four rejection rules in source order (each `return False` short-circuits,
and the rules have no effect other than their boolean outcome). -/
def applyFilters (f : Filters) (m : MessageData) : Bool :=
  if f.isEmptyDict then true
  else
    !kindRejected f m && !userRejected f m && !keywordRejected f m &&
      !requiredMissing f m

/-- A legal enumeration of a Python set: it lists exactly the elements of
the set (a permutation of them), in an order the language leaves
unspecified. -/
def ValidEnum (enum : List MsgId → List MsgId) : Prop :=
  ∀ s : List MsgId, (enum s).Perm s

/-- Lines 53-55 of `process_message`:
`if len(self.processed_messages) > 1000:
   self.processed_messages = set(list(self.processed_messages)[-1000:])`.
`enum` supplies the unspecified iteration order `list(...)` uses, and
the slice `[-1000:]` keeps its last 1000 elements. -/
def trimSet (enum : List MsgId → List MsgId) (s : List MsgId) : List MsgId :=
  if s.length > dedupCap then (enum s).drop ((enum s).length - dedupCap)
  else s

/-- Lines 51-55 of `process_message`, the Dedup Cache `record` operation:
`self.processed_messages.add(message_id)` (a no-op when the id is already
present) followed by the capacity trim.  The state list is kept in
insertion order between trims. -/
def recordId (enum : List MsgId → List MsgId) (s : List MsgId) (x : MsgId) :
    List MsgId :=
  trimSet enum (if x ∈ s then s else s ++ [x])

/-- A sequence of `record` calls starting from state `s`. -/
def recordAll (enum : List MsgId → List MsgId) (s : List MsgId) :
    List MsgId → List MsgId
  | [] => s
  | x :: xs => recordAll enum (recordId enum s x) xs

/-- Which `return` statement of `process_message` fired. -/
inductive Outcome where
  | duplicate
  | filtered
  | forwarded
  | forwardError
deriving DecidableEq

/-- The boolean `process_message` actually returns for each outcome:
only the successful forward returns `True`. -/
def pyReturn : Outcome → Bool
  | .forwarded => true
  | _ => false

/-- Result of one `process_message` call: the outcome, the dedup state
after the call, and how many times `whatsapp_client.send_message` was
invoked during the call. -/
structure ProcResult where
  outcome : Outcome
  processed : List MsgId
  sendCalls : Nat
deriving DecidableEq

/-- `MessageHandler.process_message`: duplicate check on
`message_data.get("message_id")`, then record (add + trim), then the
filters, then the sink call wrapped in `try/except` — a sink call that
raises (`send m = none`) is caught and the call returns `False`. -/
def process_message {R : Type} (enum : List MsgId → List MsgId)
    (f : Filters) (send : MessageData → Option R) (s : List MsgId)
    (m : MessageData) : ProcResult :=
  if m.message_id ∈ s then ⟨.duplicate, s, 0⟩
  else if applyFilters f m then
    match send m with
    | some _ => ⟨.forwarded, recordId enum s m.message_id, 1⟩
    | none => ⟨.forwardError, recordId enum s m.message_id, 1⟩
  else ⟨.filtered, recordId enum s m.message_id, 0⟩

/-- Dedup state after `process_message` has handled each event of a list
in order. -/
def runAll {R : Type} (enum : List MsgId → List MsgId) (f : Filters)
    (send : MessageData → Option R) (s : List MsgId) :
    List MessageData → List MsgId
  | [] => s
  | m :: ms => runAll enum f send (process_message enum f send s m).processed ms

/-- The outcomes of `process_message` over a list of events, in order. -/
def outcomesAll {R : Type} (enum : List MsgId → List MsgId) (f : Filters)
    (send : MessageData → Option R) (s : List MsgId) :
    List MessageData → List Outcome
  | [] => []
  | m :: ms =>
    (process_message enum f send s m).outcome ::
      outcomesAll enum f send (process_message enum f send s m).processed ms

/-- Total number of sink invocations over a list of events. -/
def sendCallsAll {R : Type} (enum : List MsgId → List MsgId) (f : Filters)
    (send : MessageData → Option R) (s : List MsgId) :
    List MessageData → Nat
  | [] => 0
  | m :: ms =>
    (process_message enum f send s m).sendCalls +
      sendCallsAll enum f send (process_message enum f send s m).processed ms

/-- The outbound API call `WhatsAppClient.send_message` ends up making:
either a text payload (`send_text_message`) or a media payload
(`send_media_message`), with its type, link and optional caption. -/
inductive OutboundCall where
  | text (body : String)
  | media (mediaType : String) (mediaUrl : String) (caption : Option String)
deriving DecidableEq

/-- The text/caption merge at the top of `send_message` (whatsapp.py
lines 178-181): both non-empty joins them with a blank line, otherwise
Python's `text or caption` keeps whichever is non-empty. -/
def fullText (m : MessageData) : String :=
  let text := m.getText
  let caption := m.getCaption
  if text ≠ "" && caption ≠ "" then text ++ "\n\n" ++ caption
  else if text ≠ "" then text else caption

/-- `whatsapp_type_map` in `send_message` (whatsapp.py lines 188-195). -/
def whatsappTypeMap : List (String × String) :=
  [("photo", "image"), ("video", "video"), ("audio", "audio"),
    ("document", "document"), ("voice", "audio"), ("sticker", "image")]

/-- `whatsapp_type_map.get(message_type, "document")` (line 197). -/
def mapWhatsappType (t : String) : String :=
  (whatsappTypeMap.lookup t).getD "document"

/-- `WhatsAppClient.send_media_message` (lines 69-100): builds a media
payload of the given type and link; the caption is attached only when it
is non-empty (Python truthiness) and the type is one of `image`, `video`,
`document`. -/
def send_media_message (mediaType mediaUrl caption : String) : OutboundCall :=
  .media mediaType mediaUrl
    (if caption ≠ "" && ["image", "video", "document"].contains mediaType
     then some caption else none)

/-- `WhatsAppClient.send_message` (lines 163-213): text messages go out
as text; the six known media kinds are mapped through `whatsappTypeMap`
and sent as media when a `media_file` is present (falling back to text
when it is absent); every other kind falls to the final `else` and is
sent as text. -/
def send_message (m : MessageData) : OutboundCall :=
  let messageType := m.type.getD "text"
  let ft := fullText m
  if messageType == "text" then .text ft
  else if ["photo", "video", "audio", "document", "voice",
      "sticker"].contains messageType then
    match m.media_file with
    | none => .text ft
    | some mediaFile =>
      send_media_message (mapWhatsappType messageType)
        ("https://example.com/media/" ++ mediaFile) ft
  else .text ft

/-- How `_make_api_request` left the function: a parsed response, the
re-raised `RequestException` after the retries were exhausted (the
`DeliveryFailed` surface), or the implicit `None` when the loop body
never runs (`max_retries = 0`). -/
inductive ApiOutcome (R : Type) where
  | ok (r : R)
  | raised
  | fellThrough
deriving DecidableEq

/-- Observable trace of one `_make_api_request` call: how many HTTP
attempts (`requests.post`) were made, the `time.sleep` durations in
order, and how the call ended. -/
structure ApiTrace (R : Type) where
  attempts : Nat
  sleeps : List Nat
  outcome : ApiOutcome R
deriving DecidableEq

/-- The `while retry_count < max_retries` loop of
`WhatsAppClient._make_api_request` (whatsapp.py lines 137-161), written
structurally over `remaining = max_retries - retry_count`, the number of
iterations the guard still allows: the guard fails exactly when
`remaining = 0`, and the failure branch re-raises exactly when
`retry_count + 1 >= max_retries`, i.e. when `remaining = 1`.
`post k` is the result of the attempt made with `retry_count = k`:
`some r` when the request succeeds, `none` when it raises a
`RequestException`.  A failed attempt that is not the last increments
the counter, sleeps `2 ** retry_count` seconds and retries; the last
failed attempt re-raises the exception with no sleep. -/
def apiLoop {R : Type} (post : Nat → Option R) :
    Nat → Nat → Nat → List Nat → ApiTrace R
  | 0, _, attempts, sleeps => ⟨attempts, sleeps, .fellThrough⟩
  | remaining + 1, retryCount, attempts, sleeps =>
    match post retryCount with
    | some r => ⟨attempts + 1, sleeps, .ok r⟩
    | none =>
      if remaining = 0 then ⟨attempts + 1, sleeps, .raised⟩
      else
        apiLoop post remaining (retryCount + 1) (attempts + 1)
          (sleeps ++ [2 ^ (retryCount + 1)])

/-- `WhatsAppClient._make_api_request` with its `max_retries` parameter
(default 3): the retry loop started from `retry_count = 0`. -/
def make_api_request {R : Type} (post : Nat → Option R)
    (maxRetries : Nat) : ApiTrace R :=
  apiLoop post maxRetries 0 0 []

/-- The identity enumeration: lists the set in insertion order (one of
the legal enumerations). -/
def idEnum : List MsgId → List MsgId := fun s => s

/-- A sink whose `send_message` returns a response on every call. -/
def okSink : MessageData → Option Unit := fun _ => some ()

/-- A sink whose `send_message` raises on every call. -/
def failSink : MessageData → Option Unit := fun _ => none

/-- An HTTP layer on which every `requests.post` attempt raises a
`RequestException`. -/
def failPost : Nat → Option Unit := fun _ => none

/-- A minimal event dict carrying only a `message_id`. -/
def mkEv (i : Nat) : MessageData := { message_id := some i }

/-- `dedupCap` distinct events with ids `0, 1, ..., dedupCap - 1`. -/
def capEvents : List MessageData := (List.range dedupCap).map mkEv

/-- The dedup state of a handler with no filters and an always-ok sink
after `capEvents`, when the set enumerates in reverse insertion order. -/
def fullState : List MsgId := runAll List.reverse {} okSink [] capEvents

/-- The dedup state of a handler with no filters and an always-raising
sink after `capEvents`, when the set enumerates in reverse insertion
order. -/
def fullStateF : List MsgId := runAll List.reverse {} failSink [] capEvents

/-- A media event of a kind outside the six the bridge knows, with an
attachment present. -/
def exAnim : MessageData :=
  { type := some "animation", media_file := some "a.gif", caption := some "c" }

/-- A filters dict whose only key is `ignore_keywords: ["Spam"]`. -/
def spamFilters : Filters := { ignore_keywords := some ["Spam"] }

/-- A text event containing the ignored keyword in a different case. -/
def spamMsg : MessageData := { text := some "no SPAM here" }

/-- An event dict with no `message_id` key at all. -/
def noIdEv : MessageData := {}

/-- Another event dict lacking `message_id`. -/
def noIdEv2 : MessageData := { text := some "hi" }

/-- The dedup state of a fresh, unfiltered handler with an always-ok
sink after one id-less event followed by the 1000 distinct events
`mkEv 0 … mkEv 999`, under the insertion-order enumeration. -/
def c10State : List MsgId :=
  runAll idEnum {} okSink
    (process_message idEnum {} okSink [] noIdEv).processed capEvents

/-- Trimming is the identity while the set is within capacity. -/
theorem trimSet_of_le (enum : List MsgId → List MsgId) {s : List MsgId}
    (h : s.length ≤ dedupCap) : trimSet enum s = s := by
  unfold trimSet
  rw [if_neg (by omega)]

/-- One `record` call keeps the set within capacity, for every legal
enumeration. -/
theorem recordId_length_le {enum : List MsgId → List MsgId}
    (henum : ValidEnum enum) {s : List MsgId}
    (h : s.length ≤ dedupCap) (x : MsgId) :
    (recordId enum s x).length ≤ dedupCap := by
  have step : ∀ t : List MsgId, t.length ≤ dedupCap + 1 →
      (trimSet enum t).length ≤ dedupCap := by
    intro t ht
    unfold trimSet
    by_cases h2 : t.length > dedupCap
    · rw [if_pos h2, List.length_drop, (henum t).length_eq]
      omega
    · rw [if_neg h2]; omega
  unfold recordId
  by_cases hx : x ∈ s
  · rw [if_pos hx]; exact step s (by omega)
  · rw [if_neg hx]
    exact step _ (by simp only [List.length_append, List.length_cons,
      List.length_nil]; omega)

/-- Trimming only ever discards elements. -/
theorem mem_trimSet {enum : List MsgId → List MsgId} (henum : ValidEnum enum)
    {s : List MsgId} {y : MsgId} (hy : y ∈ trimSet enum s) : y ∈ s := by
  unfold trimSet at hy
  by_cases h2 : s.length > dedupCap
  · rw [if_pos h2] at hy
    exact (henum s).mem_iff.mp (List.mem_of_mem_drop hy)
  · rwa [if_neg h2] at hy

/-- Every element present after a `record` call was present before or is
the recorded id. -/
theorem recordId_mem {enum : List MsgId → List MsgId} (henum : ValidEnum enum)
    {s : List MsgId} {x y : MsgId} (hy : y ∈ recordId enum s x) :
    y ∈ s ∨ y = x := by
  unfold recordId at hy
  have hmem := mem_trimSet henum hy
  by_cases hx : x ∈ s
  · rw [if_pos hx] at hmem; exact .inl hmem
  · rw [if_neg hx] at hmem
    rcases List.mem_append.mp hmem with h | h
    · exact .inl h
    · exact .inr (List.mem_singleton.mp h)

/-- A `record` of a fresh id with room to spare appends it: no trim
fires and no enumeration is consulted. -/
theorem recordId_fresh (enum : List MsgId → List MsgId) {s : List MsgId}
    {x : MsgId} (hx : x ∉ s) (hlen : s.length < dedupCap) :
    recordId enum s x = s ++ [x] := by
  unfold recordId
  rw [if_neg hx]
  exact trimSet_of_le enum (by simp only [List.length_append,
    List.length_cons, List.length_nil]; omega)

/-- `recordAll` splits over list concatenation. -/
theorem recordAll_append (enum : List MsgId → List MsgId) (s : List MsgId)
    (l1 l2 : List MsgId) :
    recordAll enum s (l1 ++ l2) = recordAll enum (recordAll enum s l1) l2 := by
  induction l1 generalizing s with
  | nil => rfl
  | cons x xs ih => simp only [List.cons_append, recordAll]; exact ih _

/-- Any sequence of `record` calls keeps the set within capacity. -/
theorem recordAll_length_le {enum : List MsgId → List MsgId}
    (henum : ValidEnum enum) :
    ∀ (l : List MsgId) (s : List MsgId), s.length ≤ dedupCap →
      (recordAll enum s l).length ≤ dedupCap := by
  intro l
  induction l with
  | nil => intro s hs; exact hs
  | cons x xs ih =>
    intro s hs
    exact ih _ (recordId_length_le henum hs x)

/-- Every id the cache reports seen was either already present or was
recorded by the sequence. -/
theorem recordAll_mem {enum : List MsgId → List MsgId}
    (henum : ValidEnum enum) :
    ∀ (l : List MsgId) (s : List MsgId) (y : MsgId),
      y ∈ recordAll enum s l → y ∈ s ∨ y ∈ l := by
  intro l
  induction l with
  | nil => intro s y hy; exact .inl hy
  | cons x xs ih =>
    intro s y hy
    rcases ih _ _ hy with h | h
    · rcases recordId_mem henum h with h' | h'
      · exact .inl h'
      · exact .inr (by simp [h'])
    · exact .inr (List.mem_cons_of_mem _ h)

/-- Recording `dedupCap` distinct fresh ids from the empty set fills it
in insertion order without ever trimming. -/
theorem recordAll_range (enum : List MsgId → List MsgId) :
    ∀ k, k ≤ dedupCap →
      recordAll enum [] ((List.range k).map some) = (List.range k).map some := by
  intro k
  induction k with
  | zero => intro _; rfl
  | succ n ih =>
    intro h
    rw [List.range_succ, List.map_append, recordAll_append, ih (by omega)]
    simp only [List.map_cons, List.map_nil, recordAll]
    have hfresh : some n ∉ (List.range n).map some := by simp
    have hlen : ((List.range n).map some).length < dedupCap := by
      simp only [List.length_map, List.length_range]
      omega
    rw [recordId_fresh _ hfresh hlen]

/-- An event whose id is already in the set is dropped immediately: no
filter, no record, no sink call, state unchanged. -/
theorem process_duplicate {R : Type} (enum : List MsgId → List MsgId)
    (f : Filters) (send : MessageData → Option R) (s : List MsgId)
    (m : MessageData) (h : m.message_id ∈ s) :
    process_message enum f send s m = ⟨.duplicate, s, 0⟩ := by
  unfold process_message
  rw [if_pos h]

/-- For a fresh id the state after `process_message` is the recorded
state, whatever the filters decide and whatever the sink does. -/
theorem process_fresh_processed {R : Type} (enum : List MsgId → List MsgId)
    (f : Filters) (send : MessageData → Option R) (s : List MsgId)
    (m : MessageData) (h : m.message_id ∉ s) :
    (process_message enum f send s m).processed = recordId enum s m.message_id := by
  unfold process_message
  rw [if_neg h]
  by_cases hf : applyFilters f m
  · rw [if_pos hf]
    cases send m <;> rfl
  · rw [if_neg hf]

/-- One `process_message` call invokes the sink at most once. -/
theorem process_sendCalls_le_one {R : Type} (enum : List MsgId → List MsgId)
    (f : Filters) (send : MessageData → Option R) (s : List MsgId)
    (m : MessageData) :
    (process_message enum f send s m).sendCalls ≤ 1 := by
  unfold process_message
  by_cases h : m.message_id ∈ s
  · rw [if_pos h]; exact Nat.zero_le 1
  · rw [if_neg h]
    by_cases hf : applyFilters f m
    · rw [if_pos hf]; cases send m <;> exact Nat.le_refl 1
    · rw [if_neg hf]; exact Nat.zero_le 1

/-- `runAll` splits over list concatenation. -/
theorem runAll_append {R : Type} (enum : List MsgId → List MsgId)
    (f : Filters) (send : MessageData → Option R) (s : List MsgId)
    (l1 l2 : List MessageData) :
    runAll enum f send s (l1 ++ l2) =
      runAll enum f send (runAll enum f send s l1) l2 := by
  induction l1 generalizing s with
  | nil => rfl
  | cons m ms ih => simp only [List.cons_append, runAll]; exact ih _

/-- Feeding an unfiltered handler the `k` distinct events `mkEv 0 …
mkEv (k-1)` from the empty state fills the dedup set with their ids in
insertion order; within capacity no trim fires, so the outcome is
independent of the enumeration and of the sink. -/
theorem runAll_range {R : Type} (enum : List MsgId → List MsgId)
    (send : MessageData → Option R) :
    ∀ k, k ≤ dedupCap →
      runAll enum {} send [] ((List.range k).map mkEv) =
        (List.range k).map some := by
  intro k
  induction k with
  | zero => intro _; rfl
  | succ n ih =>
    intro h
    rw [List.range_succ, List.map_append, runAll_append, ih (by omega)]
    simp only [List.map_cons, List.map_nil, runAll]
    have hid : (mkEv n).message_id = some n := rfl
    have hfresh : (mkEv n).message_id ∉ (List.range n).map some := by
      rw [hid]; simp
    have hlen : ((List.range n).map some).length < dedupCap := by
      simp only [List.length_map, List.length_range]
      omega
    rw [process_fresh_processed _ _ _ _ _ hfresh, hid,
      recordId_fresh _ (hid ▸ hfresh) hlen]
    simp

/-- Recording the fresh id `dedupCap` into the full set
`{0, …, dedupCap-1}` under the reverse enumeration trims away the id
that was just added: the set is rebuilt from the last 1000 elements of
the reversed enumeration, which drops the newest element. -/
theorem recordId_reverse_full :
    recordId List.reverse ((List.range dedupCap).map some) (some dedupCap) =
      ((List.range dedupCap).map some).reverse := by
  have hfresh : some dedupCap ∉ (List.range dedupCap).map some := by simp
  unfold recordId trimSet
  rw [if_neg hfresh]
  have hlen : ((List.range dedupCap).map some ++ [some dedupCap]).length =
      dedupCap + 1 := by
    simp only [List.length_append, List.length_map, List.length_range,
      List.length_cons, List.length_nil]
  rw [if_pos (by rw [hlen]; omega)]
  rw [List.reverse_append]
  simp only [List.reverse_cons, List.reverse_nil, List.nil_append,
    List.singleton_append, List.length_cons, List.length_reverse,
    List.length_map, List.length_range]
  have h1 : dedupCap + 1 - dedupCap = 1 := by omega
  rw [h1]
  simp

/-- The reverse enumeration is a legal iteration order for a set. -/
theorem validEnum_reverse : ValidEnum List.reverse :=
  fun s => s.reverse_perm

/-- The insertion-order enumeration is a legal iteration order. -/
theorem validEnum_id : ValidEnum idEnum :=
  fun s => List.Perm.refl s

/-- C1 (as stated) is false: the claim asserts that after more than
`dedupCap` record calls exactly the most recently inserted `dedupCap`
ids report seen, the oldest being discarded.  The trim is
`set(list(s)[-1000:])` over a Python `set`, whose iteration order is not
insertion order; under the legal reverse enumeration, recording the ids
`0, 1, …, 1000` in that order leaves the *newest* id `1000` unseen while
the *oldest* id `0` is still seen. -/
theorem C1_counterexample :
    ValidEnum List.reverse ∧
    some dedupCap ∉
      recordAll List.reverse [] ((List.range (dedupCap + 1)).map some) ∧
    some 0 ∈
      recordAll List.reverse [] ((List.range (dedupCap + 1)).map some) := by
  have hrun : recordAll List.reverse [] ((List.range (dedupCap + 1)).map some) =
      ((List.range dedupCap).map some).reverse := by
    rw [List.range_succ, List.map_append, recordAll_append,
      recordAll_range _ dedupCap (Nat.le_refl dedupCap)]
    simp only [List.map_cons, List.map_nil, recordAll]
    exact recordId_reverse_full
  refine ⟨validEnum_reverse, ?_, ?_⟩
  · rw [hrun]
    simp
  · rw [hrun]
    simp only [List.mem_reverse, List.mem_map, List.mem_range]
    exact ⟨0, by rw [dedupCap]; omega, rfl⟩

/-- C1, amended: after any sequence of record calls the cache holds at
most `dedupCap` ids, and every id reporting seen was recorded at some
point; but which ids survive an eviction is decided by the set's
unspecified iteration order at trim time, not by insertion recency. -/
theorem C1_amended {enum : List MsgId → List MsgId} (henum : ValidEnum enum)
    (ids : List MsgId) :
    (recordAll enum [] ids).length ≤ dedupCap ∧
    ∀ x ∈ recordAll enum [] ids, x ∈ ids := by
  refine ⟨recordAll_length_le henum ids [] (Nat.zero_le _), ?_⟩
  intro x hx
  rcases recordAll_mem henum ids [] x hx with h | h
  · exact absurd h (List.not_mem_nil x)
  · exact h

/-- Witness for `C1_amended` at the insertion-order enumeration and a
concrete two-id sequence. -/
theorem C1_witness :
    (recordAll idEnum [] [some 1, some 2]).length ≤ dedupCap ∧
    ∀ x ∈ recordAll idEnum [] [some 1, some 2], x ∈ [some 1, some 2] :=
  C1_amended validEnum_id [some 1, some 2]

/-- C6: for every legal enumeration, the dedup set never exceeds the
configured capacity after any sequence of record calls (every prefix of
a sequence is itself such a sequence, so this bounds the size after each
completed call). -/
theorem C6_confirmed {enum : List MsgId → List MsgId} (henum : ValidEnum enum)
    (s : List MsgId) (hs : s.length ≤ dedupCap) (ids : List MsgId) :
    (recordAll enum s ids).length ≤ dedupCap :=
  recordAll_length_le henum ids s hs

/-- Witness for `C6_confirmed` on a concrete three-call sequence. -/
theorem C6_witness :
    (recordAll idEnum [] [some 1, some 2, some 1]).length ≤ dedupCap :=
  C6_confirmed validEnum_id [] (Nat.zero_le _) [some 1, some 2, some 1]

/-- Closed form of the retry loop against an HTTP layer that fails every
attempt: starting at `retry_count = retryCount` with `remaining`
iterations allowed, the loop makes `remaining` further attempts, sleeps
`2 ^ k` for `k = retryCount+1, …, retryCount+remaining-1`, and re-raises. -/
theorem apiLoop_fail {R : Type} (post : Nat → Option R)
    (hfail : ∀ k, post k = none) :
    ∀ (remaining retryCount attempts : Nat) (sleeps : List Nat),
      0 < remaining →
      apiLoop post remaining retryCount attempts sleeps =
        ⟨attempts + remaining,
          sleeps ++
            (List.range' (retryCount + 1) (remaining - 1)).map (fun k => 2 ^ k),
          .raised⟩ := by
  intro remaining
  induction remaining with
  | zero => intro _ _ _ h; omega
  | succ n ih =>
    intro rc a sl _
    simp only [apiLoop, hfail rc]
    by_cases hn : n = 0
    · subst hn
      simp [List.range']
    · rw [if_neg hn, ih (rc + 1) (a + 1) (sl ++ [2 ^ (rc + 1)]) (by omega)]
      have hn1 : n - 1 + 1 = n := by omega
      have h3 : List.range' (rc + 1) n =
          (rc + 1) :: List.range' (rc + 1 + 1) (n - 1) := by
        conv_lhs => rw [← hn1]
        rw [List.range'_succ]
      have hlist : sl ++ [2 ^ (rc + 1)] ++
          (List.range' (rc + 1 + 1) (n - 1)).map (fun k => 2 ^ k) =
          sl ++ (List.range' (rc + 1) (n + 1 - 1)).map (fun k => 2 ^ k) := by
        rw [Nat.add_sub_cancel, h3, List.map_cons, List.append_assoc,
          List.singleton_append]
      rw [hlist]
      have hatt : a + 1 + n = a + (n + 1) := by omega
      rw [hatt]

/-- C2 (as stated) is false: the claim predicts sleeps of 2 s, 4 s and
8 s — one after each of the three failed attempts.  The loop re-raises
as soon as the incremented counter reaches `max_retries`, so no sleep
follows the final failed attempt: against an always-failing transport
with the default `max_retries = 3` the actual trace is three attempts
with sleeps `[2, 4]`, not the claimed `[2, 4, 8]`. -/
theorem C2_counterexample :
    make_api_request failPost 3 = ⟨3, [2, 4], .raised⟩ ∧
    ([2, 4] : List Nat) ≠ [2, 4, 8] := by
  constructor
  · decide
  · decide

/-- C2, amended: a sink that fails on every attempt makes exactly
`maxRetries` outbound attempts, sleeping `2 ^ attempt` seconds after
each failed attempt except the last (2 s, 4 s, …, `2 ^ (maxRetries-1)` s),
and then re-raises the transport error — the `DeliveryFailed` surface —
without a final sleep. -/
theorem C2_amended {R : Type} (post : Nat → Option R)
    (hfail : ∀ k, post k = none) (maxRetries : Nat) (hpos : 0 < maxRetries) :
    make_api_request post maxRetries =
      ⟨maxRetries, (List.range' 1 (maxRetries - 1)).map (fun k => 2 ^ k),
        .raised⟩ := by
  unfold make_api_request
  rw [apiLoop_fail post hfail maxRetries 0 0 [] hpos]
  simp

/-- Witness for `C2_amended` at the default `max_retries = 3`. -/
theorem C2_witness :
    (∀ k, failPost k = none) ∧ 0 < 3 ∧
    make_api_request failPost 3 =
      ⟨3, (List.range' 1 (3 - 1)).map (fun k => 2 ^ k), .raised⟩ :=
  ⟨fun _ => rfl, by omega, C2_amended failPost (fun _ => rfl) 3 (by omega)⟩

/-- With no filters configured, `_apply_filters` takes the empty-dict
fast path and accepts everything. -/
theorem applyFilters_noFilters (m : MessageData) : applyFilters {} m = true :=
  rfl

/-- Full evaluation of `process_message` on a fresh, filter-passing
event whose sink call returns a response. -/
theorem process_fresh_ok {R : Type} (enum : List MsgId → List MsgId)
    (f : Filters) (send : MessageData → Option R) (s : List MsgId)
    (m : MessageData) (r : R) (hfresh : m.message_id ∉ s)
    (hflt : applyFilters f m = true) (hsend : send m = some r) :
    process_message enum f send s m =
      ⟨.forwarded, recordId enum s m.message_id, 1⟩ := by
  unfold process_message
  rw [if_neg hfresh, if_pos hflt, hsend]

/-- Full evaluation of `process_message` on a fresh, filter-passing
event whose sink call raises. -/
theorem process_fresh_err {R : Type} (enum : List MsgId → List MsgId)
    (f : Filters) (send : MessageData → Option R) (s : List MsgId)
    (m : MessageData) (hfresh : m.message_id ∉ s)
    (hflt : applyFilters f m = true) (hsend : send m = none) :
    process_message enum f send s m =
      ⟨.forwardError, recordId enum s m.message_id, 1⟩ := by
  unfold process_message
  rw [if_neg hfresh, if_pos hflt, hsend]

/-- Outcome of a fresh, filter-passing event with a responding sink. -/
theorem process_outcome_ok {R : Type} (enum : List MsgId → List MsgId)
    (f : Filters) (send : MessageData → Option R) (s : List MsgId)
    (m : MessageData) (r : R) (hfresh : m.message_id ∉ s)
    (hflt : applyFilters f m = true) (hsend : send m = some r) :
    (process_message enum f send s m).outcome = .forwarded := by
  rw [process_fresh_ok enum f send s m r hfresh hflt hsend]

/-- Sink-call count of a fresh, filter-passing event with a responding
sink. -/
theorem process_sendCalls_ok {R : Type} (enum : List MsgId → List MsgId)
    (f : Filters) (send : MessageData → Option R) (s : List MsgId)
    (m : MessageData) (r : R) (hfresh : m.message_id ∉ s)
    (hflt : applyFilters f m = true) (hsend : send m = some r) :
    (process_message enum f send s m).sendCalls = 1 := by
  rw [process_fresh_ok enum f send s m r hfresh hflt hsend]

/-- Outcome of a fresh, filter-passing event with a raising sink. -/
theorem process_outcome_err {R : Type} (enum : List MsgId → List MsgId)
    (f : Filters) (send : MessageData → Option R) (s : List MsgId)
    (m : MessageData) (hfresh : m.message_id ∉ s)
    (hflt : applyFilters f m = true) (hsend : send m = none) :
    (process_message enum f send s m).outcome = .forwardError := by
  rw [process_fresh_err enum f send s m hfresh hflt hsend]

/-- C3, amended: if two events carrying the same id are processed in
sequence and the dedup set is below capacity when the first arrives (so
the first call's record cannot trigger an eviction), the second call is
dropped as a duplicate with no sink call, and the sink is invoked at
most once across both calls. -/
theorem C3_amended {R : Type} (enum : List MsgId → List MsgId) (f : Filters)
    (send1 send2 : MessageData → Option R) (s : List MsgId)
    (m1 m2 : MessageData) (hid : m2.message_id = m1.message_id)
    (hlen : s.length < dedupCap) :
    (process_message enum f send2
        (process_message enum f send1 s m1).processed m2).outcome =
      .duplicate ∧
    (process_message enum f send2
        (process_message enum f send1 s m1).processed m2).sendCalls = 0 ∧
    (process_message enum f send1 s m1).sendCalls +
      (process_message enum f send2
        (process_message enum f send1 s m1).processed m2).sendCalls ≤ 1 := by
  have hmem : m2.message_id ∈ (process_message enum f send1 s m1).processed := by
    rw [hid]
    by_cases h : m1.message_id ∈ s
    · rw [process_duplicate enum f send1 s m1 h]
      exact h
    · rw [process_fresh_processed enum f send1 s m1 h,
        recordId_fresh enum h hlen]
      simp
  rw [process_duplicate enum f send2 _ m2 hmem]
  refine ⟨rfl, rfl, ?_⟩
  simpa using process_sendCalls_le_one enum f send1 s m1

/-- Witness for `C3_amended`: the same id processed twice from a fresh
handler with no filters and an always-ok sink. -/
theorem C3_witness :
    ([] : List MsgId).length < dedupCap ∧
    (process_message idEnum {} okSink
        (process_message idEnum {} okSink [] (mkEv 7)).processed
        (mkEv 7)).outcome = .duplicate ∧
    (process_message idEnum {} okSink
        (process_message idEnum {} okSink [] (mkEv 7)).processed
        (mkEv 7)).sendCalls = 0 ∧
    (process_message idEnum {} okSink [] (mkEv 7)).sendCalls +
      (process_message idEnum {} okSink
        (process_message idEnum {} okSink [] (mkEv 7)).processed
        (mkEv 7)).sendCalls ≤ 1 :=
  ⟨by decide,
    C3_amended idEnum {} okSink okSink [] (mkEv 7) (mkEv 7) rfl (by decide)⟩

/-- C3 (as stated) is false: after the 1001 events `mkEv 0 … mkEv 1000`
have been processed from a fresh handler under the legal reverse
enumeration, the id 1000 was evicted by the trim of the call that
recorded it; processing a second event with id 1000 immediately
afterwards is not dropped as a duplicate, and the sink fires on both of
the two same-id calls. -/
theorem C3_counterexample :
    ValidEnum List.reverse ∧
    (process_message List.reverse {} okSink fullState (mkEv dedupCap)).sendCalls
      = 1 ∧
    (process_message List.reverse {} okSink
        (process_message List.reverse {} okSink fullState
          (mkEv dedupCap)).processed
        (mkEv dedupCap)).outcome ≠ .duplicate ∧
    (process_message List.reverse {} okSink
        (process_message List.reverse {} okSink fullState
          (mkEv dedupCap)).processed
        (mkEv dedupCap)).sendCalls = 1 := by
  have hfs : fullState = (List.range dedupCap).map some :=
    runAll_range _ _ dedupCap (Nat.le_refl _)
  have hid : (mkEv dedupCap).message_id = some dedupCap := rfl
  have hfresh1 : (mkEv dedupCap).message_id ∉ fullState := by
    rw [hfs, hid]; simp
  have hproc1 : (process_message List.reverse {} okSink fullState
      (mkEv dedupCap)).processed = ((List.range dedupCap).map some).reverse := by
    rw [process_fresh_processed List.reverse {} okSink fullState
      (mkEv dedupCap) hfresh1, hfs, hid]
    exact recordId_reverse_full
  have hfresh2 : (mkEv dedupCap).message_id ∉
      (process_message List.reverse {} okSink fullState (mkEv dedupCap)).processed := by
    rw [hproc1, hid]; simp
  refine ⟨validEnum_reverse, ?_, ?_, ?_⟩
  · exact process_sendCalls_ok List.reverse {} okSink fullState (mkEv dedupCap)
      () hfresh1 (applyFilters_noFilters _) rfl
  · rw [process_outcome_ok List.reverse {} okSink _ (mkEv dedupCap) () hfresh2
      (applyFilters_noFilters _) rfl]
    decide
  · exact process_sendCalls_ok List.reverse {} okSink _ (mkEv dedupCap) ()
      hfresh2 (applyFilters_noFilters _) rfl

/-- C4, amended: for a fresh id the dedup state after `process_message`
is the recorded state whatever the filters and the sink do (the record
happens before the filter decision and before any dispatch attempt);
and provided the set was below capacity when the event arrived (so the
trim cannot evict the id just recorded), the id reports seen after the
call returns and a second event with the same id is dropped as a
duplicate — in particular a message whose dispatch failed is not
redelivered. -/
theorem C4_amended {R : Type} (enum : List MsgId → List MsgId) (f : Filters)
    (send send2 : MessageData → Option R) (s : List MsgId)
    (m m2 : MessageData) (hfresh : m.message_id ∉ s)
    (hlen : s.length < dedupCap) (hid : m2.message_id = m.message_id) :
    (process_message enum f send s m).processed = recordId enum s m.message_id ∧
    m.message_id ∈ (process_message enum f send s m).processed ∧
    (process_message enum f send2
        (process_message enum f send s m).processed m2).outcome = .duplicate := by
  have h1 := process_fresh_processed enum f send s m hfresh
  have hmem : m.message_id ∈ (process_message enum f send s m).processed := by
    rw [h1, recordId_fresh enum hfresh hlen]
    simp
  have hmem2 : m2.message_id ∈ (process_message enum f send s m).processed := by
    rw [hid]; exact hmem
  exact ⟨h1, hmem, by rw [process_duplicate enum f send2 _ m2 hmem2]⟩

/-- Witness for `C4_amended`: a fresh id whose dispatch raises is still
recorded, and its duplicate is dropped. -/
theorem C4_witness :
    ((mkEv 9).message_id ∉ ([] : List MsgId)) ∧
    (process_message idEnum {} failSink [] (mkEv 9)).processed =
      recordId idEnum [] (mkEv 9).message_id ∧
    (mkEv 9).message_id ∈
      (process_message idEnum {} failSink [] (mkEv 9)).processed ∧
    (process_message idEnum {} failSink
        (process_message idEnum {} failSink [] (mkEv 9)).processed
        (mkEv 9)).outcome = .duplicate :=
  ⟨by decide,
    C4_amended idEnum {} failSink failSink [] (mkEv 9) (mkEv 9) (by decide)
      (by decide) rfl⟩

/-- C4 (as stated) is false: with the dedup set already holding the 1000
ids `0 … 999` (reached from a fresh handler by 1000 recorded events,
each of which failed to dispatch), processing the fresh event with id
1000 under the legal reverse enumeration records the id but the trim at
once evicts it — after the call returns the id reports seen == false
even though its dispatch was attempted and failed, and a second event
with the same id is processed again rather than dropped. -/
theorem C4_counterexample :
    ValidEnum List.reverse ∧
    (process_message List.reverse {} failSink fullStateF (mkEv dedupCap)).outcome
      = .forwardError ∧
    (mkEv dedupCap).message_id ∉
      (process_message List.reverse {} failSink fullStateF
        (mkEv dedupCap)).processed ∧
    (process_message List.reverse {} failSink
        (process_message List.reverse {} failSink fullStateF
          (mkEv dedupCap)).processed
        (mkEv dedupCap)).outcome ≠ .duplicate := by
  have hfs : fullStateF = (List.range dedupCap).map some :=
    runAll_range _ _ dedupCap (Nat.le_refl _)
  have hid : (mkEv dedupCap).message_id = some dedupCap := rfl
  have hfresh1 : (mkEv dedupCap).message_id ∉ fullStateF := by
    rw [hfs, hid]; simp
  have hproc1 : (process_message List.reverse {} failSink fullStateF
      (mkEv dedupCap)).processed = ((List.range dedupCap).map some).reverse := by
    rw [process_fresh_processed List.reverse {} failSink fullStateF
      (mkEv dedupCap) hfresh1, hfs, hid]
    exact recordId_reverse_full
  have hfresh2 : (mkEv dedupCap).message_id ∉
      (process_message List.reverse {} failSink fullStateF
        (mkEv dedupCap)).processed := by
    rw [hproc1, hid]; simp
  refine ⟨validEnum_reverse, ?_, hfresh2, ?_⟩
  · exact process_outcome_err List.reverse {} failSink fullStateF
      (mkEv dedupCap) hfresh1 (applyFilters_noFilters _) rfl
  · rw [process_outcome_err List.reverse {} failSink _ (mkEv dedupCap)
      hfresh2 (applyFilters_noFilters _) rfl]
    decide

/-- C5 (as stated) is false: the claim predicts that a media message of
an unrecognized kind with an attachment is sent as a media call of
category `document`.  The `document` default of `whatsapp_type_map.get`
is unreachable, because the `elif` guard admits exactly the six mapped
kinds: an unrecognized kind falls to the final `else` and is sent as a
text-only call.  Concretely, kind `animation` with attachment `a.gif`
and caption `c` produces the text call, not the claimed document call. -/
theorem C5_counterexample :
    send_message exAnim = .text "c" ∧
    send_message exAnim ≠
      .media "document" "https://example.com/media/a.gif" (some "c") := by
  constructor
  · decide
  · decide

/-- C5, amended: a message whose kind is not one of `text`, `photo`,
`video`, `audio`, `document`, `voice`, `sticker` is dispatched as a
text-only call carrying the combined text, even when an attachment is
present; no media call (in particular none of category `document`) is
made for it. -/
theorem C5_amended (m : MessageData) (t fileId : String)
    (htype : m.type = some t) (hmedia : m.media_file = some fileId)
    (hnot : t ∉ ["text", "photo", "video", "audio", "document", "voice",
      "sticker"]) :
    send_message m = .text (fullText m) := by
  simp only [List.mem_cons, List.mem_singleton, not_or] at hnot
  obtain ⟨ht1, ht2, ht3, ht4, ht5, ht6, ht7⟩ := hnot
  simp [send_message, htype, ht1, ht2, ht3, ht4, ht5, ht6, ht7]

/-- Witness for `C5_amended` at the `animation` event. -/
theorem C5_witness :
    exAnim.type = some "animation" ∧ exAnim.media_file = some "a.gif" ∧
    ("animation" ∉ ["text", "photo", "video", "audio", "document", "voice",
      "sticker"]) ∧
    send_message exAnim = .text (fullText exAnim) :=
  ⟨rfl, rfl, by decide,
    C5_amended exAnim "animation" "a.gif" rfl rfl (by decide)⟩

/-- C7: whenever some `ignore_keywords` entry, lowercased, occurs as a
substring anywhere in the lowercased `text + " " + caption` haystack of
a message that passed the kind and user rules, `_apply_filters` rejects
the message. -/
theorem C7_confirmed (f : Filters) (m : MessageData) (kws : List String)
    (hk : f.ignore_keywords = some kws) (hne : kws ≠ [])
    (hkind : kindRejected f m = false) (huser : userRejected f m = false)
    (hkw : ∃ kw ∈ kws, pyIn (pyLower kw) (haystack m) = true) :
    applyFilters f m = false := by
  have hkr : keywordRejected f m = true := by
    unfold keywordRejected
    rw [hk, Option.getD_some, List.any_eq_true]
    obtain ⟨kw, hmem, hp⟩ := hkw
    exact ⟨kw, hmem, hp⟩
  have hemp : f.isEmptyDict = false := by
    unfold Filters.isEmptyDict
    rw [hk]
    simp
  unfold applyFilters
  simp [hemp, hkr]

/-- Witness for `C7_confirmed`: keyword `Spam` against the text
`no SPAM here`, mixed case, mid-string. -/
theorem C7_witness :
    spamFilters.ignore_keywords = some ["Spam"] ∧
    (["Spam"] : List String) ≠ [] ∧
    kindRejected spamFilters spamMsg = false ∧
    userRejected spamFilters spamMsg = false ∧
    (∃ kw ∈ ["Spam"], pyIn (pyLower kw) (haystack spamMsg) = true) ∧
    applyFilters spamFilters spamMsg = false :=
  ⟨rfl, by decide, by decide, by decide, by decide,
    C7_confirmed spamFilters spamMsg ["Spam"] rfl (by decide) (by decide)
      (by decide) (by decide)⟩

/-- C8: a sink call that raises is caught by the `try/except` around
`send_message`; the call reports the failure outcome and returns
`False`, and the handler still processes a subsequent fresh,
filter-passing event through to a successful forward. -/
theorem C8_confirmed {R : Type} (enum : List MsgId → List MsgId) (f : Filters)
    (send send2 : MessageData → Option R) (s : List MsgId) (m : MessageData)
    (hfresh : m.message_id ∉ s) (hpass : applyFilters f m = true)
    (hraise : send m = none) :
    (process_message enum f send s m).outcome = .forwardError ∧
    pyReturn (process_message enum f send s m).outcome = false ∧
    ∀ m2 r2, m2.message_id ∉ (process_message enum f send s m).processed →
      applyFilters f m2 = true → send2 m2 = some r2 →
      (process_message enum f send2
        (process_message enum f send s m).processed m2).outcome = .forwarded := by
  have h1 := process_outcome_err enum f send s m hfresh hpass hraise
  refine ⟨h1, by rw [h1]; rfl, ?_⟩
  intro m2 r2 hf2 hp2 hs2
  exact process_outcome_ok enum f send2 _ m2 r2 hf2 hp2 hs2

/-- Witness for `C8_confirmed`: a raising sink on event 3, then a
successful forward of event 4. -/
theorem C8_witness :
    ((mkEv 3).message_id ∉ ([] : List MsgId)) ∧
    applyFilters {} (mkEv 3) = true ∧ failSink (mkEv 3) = none ∧
    (process_message idEnum {} failSink [] (mkEv 3)).outcome = .forwardError ∧
    pyReturn (process_message idEnum {} failSink [] (mkEv 3)).outcome = false ∧
    (process_message idEnum {} okSink
        (process_message idEnum {} failSink [] (mkEv 3)).processed
        (mkEv 4)).outcome = .forwarded := by
  have h := C8_confirmed idEnum {} failSink okSink [] (mkEv 3)
    (by decide) rfl rfl
  exact ⟨by decide, rfl, rfl, h.1, h.2.1, h.2.2 (mkEv 4) () (by decide) rfl rfl⟩

/-- C9: `process_message` returns `True` exactly when the id was fresh,
the filters passed and the sink call returned without raising; the
duplicate, filtered and dispatch-failure paths all return the same
`False` and are indistinguishable in the returned boolean. -/
theorem C9_confirmed {R : Type} (enum : List MsgId → List MsgId) (f : Filters)
    (send : MessageData → Option R) (s : List MsgId) (m : MessageData) :
    (pyReturn (process_message enum f send s m).outcome = true ↔
      (m.message_id ∉ s ∧ applyFilters f m = true ∧ (send m).isSome = true)) ∧
    pyReturn .duplicate = false ∧ pyReturn .filtered = false ∧
    pyReturn .forwardError = false := by
  refine ⟨?_, rfl, rfl, rfl⟩
  unfold process_message
  by_cases hmem : m.message_id ∈ s
  · rw [if_pos hmem]
    simp [pyReturn, hmem]
  · rw [if_neg hmem]
    by_cases hf : applyFilters f m = true
    · rw [if_pos hf]
      cases hsend : send m with
      | some r => simp [pyReturn, hmem, hf, hsend]
      | none => simp [pyReturn, hmem, hf, hsend]
    · rw [if_neg hf]
      simp [pyReturn, hmem, hf]

/-- Feeding an unfiltered handler the `k < dedupCap` distinct events
`mkEv 0 … mkEv (k-1)` from the one-element state `[none]` appends their
ids in insertion order; no trim fires yet. -/
theorem runAll_none_range {R : Type} (send : MessageData → Option R) :
    ∀ k, k < dedupCap →
      runAll idEnum {} send [none] ((List.range k).map mkEv) =
        none :: (List.range k).map some := by
  intro k
  induction k with
  | zero => intro _; rfl
  | succ n ih =>
    intro h
    rw [List.range_succ, List.map_append, runAll_append, ih (by omega)]
    simp only [List.map_cons, List.map_nil, runAll]
    have hid : (mkEv n).message_id = some n := rfl
    have hfresh : (mkEv n).message_id ∉ none :: (List.range n).map some := by
      rw [hid]; simp
    have hlen : (none :: (List.range n).map some).length < dedupCap := by
      simp only [List.length_cons, List.length_map, List.length_range]
      omega
    rw [process_fresh_processed _ _ _ _ _ hfresh, hid,
      recordId_fresh _ (hid ▸ hfresh) hlen]
    simp

/-- Recording the fresh id 999 into the 1000-element state holding
`None` and the ids `0 … 998` trips the capacity trim; under the
insertion-order enumeration the slice `[-1000:]` keeps the last 1000
elements and drops the head — `None`, the oldest entry. -/
theorem recordId_id_evicts_none :
    recordId idEnum (none :: (List.range 999).map some) (some 999) =
      (List.range 1000).map some := by
  have hfresh : (some 999 : MsgId) ∉ none :: (List.range 999).map some := by
    simp
  unfold recordId trimSet idEnum
  rw [if_neg hfresh]
  have hlen : ((none :: (List.range 999).map some) ++ [some 999]).length
      = 1001 := by
    simp
  rw [if_pos (by rw [hlen]; decide)]
  rw [hlen]
  have h2 : 1001 - dedupCap = 1 := by decide
  rw [h2, List.cons_append]
  show List.map some (List.range 999) ++ [some 999]
    = List.map some (List.range 1000)
  conv_rhs => rw [show (1000 : Nat) = 999 + 1 from rfl, List.range_succ,
    List.map_append]
  simp only [List.map_cons, List.map_nil]

/-- After the id-less event's `None` and then 1000 distinct ids, the
trim of the 1000th id has evicted `None` from the set. -/
theorem runAll_none_full {R : Type} (send : MessageData → Option R) :
    runAll idEnum {} send [none] capEvents = (List.range 1000).map some := by
  have h1 : capEvents = ((List.range 999).map mkEv) ++ [mkEv 999] := by
    unfold capEvents
    rw [show dedupCap = 999 + 1 from rfl, List.range_succ, List.map_append]
    simp only [List.map_cons, List.map_nil]
  rw [h1, runAll_append, runAll_none_range send 999 (by decide)]
  simp only [runAll]
  have hfresh : (mkEv 999).message_id ∉ none :: (List.range 999).map some := by
    rw [show (mkEv 999).message_id = some 999 from rfl]; simp
  rw [process_fresh_processed _ _ _ _ _ hfresh,
    show (mkEv 999).message_id = some 999 from rfl, recordId_id_evicts_none]

/-- C10 (as stated) is false in its unconditional form: `None` is
evicted by the capacity trim like any other id.  From a fresh handler,
an id-less event records `None`; after the 1000 distinct events
`mkEv 0 … mkEv 999` the trim fired by the last one evicts `None` even
under the insertion-order enumeration (the slice keeps the newest 1000
entries and `None` is the oldest), so the next id-less event is not
dropped as a duplicate: it is forwarded and the sink fires again. -/
theorem C10_counterexample :
    ValidEnum idEnum ∧
    noIdEv.message_id = none ∧ noIdEv2.message_id = none ∧
    (process_message idEnum {} okSink [] noIdEv).outcome ≠ .duplicate ∧
    none ∈ (process_message idEnum {} okSink [] noIdEv).processed ∧
    (process_message idEnum {} okSink c10State noIdEv2).outcome = .forwarded ∧
    (process_message idEnum {} okSink c10State noIdEv2).sendCalls = 1 := by
  have hproc0 : (process_message idEnum {} okSink [] noIdEv).processed
      = [none] := by
    rw [process_fresh_processed idEnum {} okSink [] noIdEv (by decide),
      show noIdEv.message_id = none from rfl,
      recordId_fresh idEnum (List.not_mem_nil _) (by decide)]
    rfl
  have hstate : c10State = (List.range 1000).map some := by
    unfold c10State
    rw [hproc0]
    exact runAll_none_full okSink
  have hfresh2 : noIdEv2.message_id ∉ c10State := by
    rw [hstate, show noIdEv2.message_id = none from rfl]
    simp
  refine ⟨validEnum_id, rfl, rfl, ?_, ?_, ?_, ?_⟩
  · rw [process_outcome_ok idEnum {} okSink [] noIdEv () (by decide) rfl rfl]
    decide
  · rw [hproc0]
    exact List.mem_singleton.mpr rfl
  · exact process_outcome_ok idEnum {} okSink c10State noIdEv2 () hfresh2
      (applyFilters_noFilters _) rfl
  · exact process_sendCalls_ok idEnum {} okSink c10State noIdEv2 () hfresh2
      (applyFilters_noFilters _) rfl

/-- C10, amended: an event dict lacking `message_id` has `None`
recorded as its id.  From a state that has not yet recorded `None` and
is below capacity, such an event is processed normally (never the
duplicate path), `None` enters the set, and every later id-less event
is dropped as a duplicate with no dispatch attempt and no state change
for as long as `None` is still in the set — a capacity trim may evict
`None` like any other id, after which the next id-less event is
processed again. -/
theorem C10_amended {R : Type} (enum : List MsgId → List MsgId) (f : Filters)
    (send : MessageData → Option R) (s : List MsgId) (m0 m2 : MessageData)
    (h0 : m0.message_id = none) (h2 : m2.message_id = none)
    (hfresh : none ∉ s) (hlen : s.length < dedupCap) :
    (process_message enum f send s m0).outcome ≠ .duplicate ∧
    (process_message enum f send s m0).processed = recordId enum s none ∧
    none ∈ (process_message enum f send s m0).processed ∧
    ∀ s2 : List MsgId, none ∈ s2 →
      process_message enum f send s2 m2 = ⟨.duplicate, s2, 0⟩ := by
  have hfresh0 : m0.message_id ∉ s := by rw [h0]; exact hfresh
  have hproc : (process_message enum f send s m0).processed
      = recordId enum s none := by
    rw [process_fresh_processed enum f send s m0 hfresh0, h0]
  have hne : (process_message enum f send s m0).outcome ≠ .duplicate := by
    unfold process_message
    rw [if_neg hfresh0]
    by_cases hf : applyFilters f m0 = true
    · rw [if_pos hf]
      cases hsend : send m0 <;> simp
    · rw [if_neg hf]
      simp
  have hmem : none ∈ (process_message enum f send s m0).processed := by
    rw [hproc, recordId_fresh enum hfresh hlen]
    simp
  refine ⟨hne, hproc, hmem, ?_⟩
  intro s2 hs2
  exact process_duplicate enum f send s2 m2 (by rw [h2]; exact hs2)

/-- Witness for `C10_amended`: two id-less events from a fresh handler;
the second is dropped in the state left by the first. -/
theorem C10_witness :
    noIdEv.message_id = none ∧ noIdEv2.message_id = none ∧
    (none ∉ ([] : List MsgId)) ∧ ([] : List MsgId).length < dedupCap ∧
    (process_message idEnum {} okSink [] noIdEv).outcome ≠ .duplicate ∧
    none ∈ (process_message idEnum {} okSink [] noIdEv).processed ∧
    process_message idEnum {} okSink
        (process_message idEnum {} okSink [] noIdEv).processed noIdEv2 =
      ⟨.duplicate, (process_message idEnum {} okSink [] noIdEv).processed, 0⟩ := by
  have h := C10_amended idEnum {} okSink [] noIdEv noIdEv2 rfl rfl
    (by decide) (by decide)
  exact ⟨rfl, rfl, by decide, by decide, h.1, h.2.2.1, h.2.2.2 _ h.2.2.1⟩
